import Mathlib

/-!
Verification of the reflex-webcam recording bridge against its design
specification.

Python strings are embedded as `List Char`; bytes as `List Nat`; the
filesystem content of the video artifact as `Option (List Nat)` (`none` =
no file on disk).  External collaborators (the browser MediaRecorder API,
the URL-opening data-URI decoder, the image library) are modelled at their
interfaces, as the specification prescribes.
-/

set_option autoImplicit false

/-! ## Chunk Codec Normalizer (src/custom_components/reflex_webcam/webcam.py, strip_codec_part) -/

/-- Membership test of a character sequence inside another, embedding the
Python substring operator `needle in hay`. -/
def containsSeq (needle : List Char) : List Char → Bool
  | [] => needle.isEmpty
  | c :: t => needle.isPrefixOf (c :: t) || containsSeq needle t

/-- The literal substring `"codecs="` searched for by `strip_codec_part`. -/
def codecsKey : List Char := ['c', 'o', 'd', 'e', 'c', 's', '=']

/-- Does a segment contain `"codecs="`?  Embeds `"codecs=" in part`. -/
def hasCodecs (p : List Char) : Bool := containsSeq codecsKey p

/-- Embedding of Python `s.split(";")` (single-character separator). -/
def splitOnSemi : List Char → List (List Char)
  | [] => [[]]
  | c :: t =>
    if c = ';' then [] :: splitOnSemi t
    else (c :: (splitOnSemi t).headD []) :: (splitOnSemi t).tail

/-- Embedding of Python `";".join(parts)`. -/
def joinSemi : List (List Char) → List Char
  | [] => []
  | [x] => x
  | x :: y :: rest => x ++ ';' :: joinSemi (y :: rest)

/-- Embedding of the loop body of `strip_codec_part`: iterate over `parts`,
and at the first part containing `"codecs="` call `parts.remove(part)`
(which deletes the first element *equal* to `part`) and break. -/
def loopRemove (l : List (List Char)) : List (List Char) :=
  match l.find? hasCodecs with
  | none => l
  | some p => l.erase p

/-- Embedding of `strip_codec_part` from
src/custom_components/reflex_webcam/webcam.py (identical to
`State._strip_codec_part` in the legacy demo): split on `';'`, remove the
first matching part via the loop, rejoin with `';'`. -/
def strip_codec_part (s : List Char) : List Char :=
  joinSemi (loopRemove (splitOnSemi s))

/-- Removal of exactly the first segment satisfying `pred`, written from
the specification text of the normalizer: "removes the first segment
containing codecs=; if multiple exist, only the first match is removed". -/
def removeFirstMatching (pred : List Char → Bool) : List (List Char) → List (List Char)
  | [] => []
  | x :: t => if pred x then t else x :: removeFirstMatching pred t

/-- Normalizer as worded by the specification (section 4.4): split the
payload on `';'`, remove the first segment containing `"codecs="`, rejoin
the remaining segments with `';'`. -/
def normalizeSpec (s : List Char) : List Char :=
  joinSemi (removeFirstMatching hasCodecs (splitOnSemi s))

/-! ## Recorder Session (START_RECORDING_JS_TEMPLATE, Webcam.start, Webcam.stop) -/

/-- Kinds of listeners registered on a recorder by the generated hook. -/
inductive LKind
  | dataavailable
  | started
  | stopped
  | errored
  deriving DecidableEq

/-- Error events reported through the on_error channel by the hook's two
try/except blocks. -/
inductive ErrKind
  | constructFailed
  | startFailed
  deriving DecidableEq

/-- One MediaRecorder instance: a construction identity, whether it is
currently recording, and the listeners registered on it.  The browser
MediaRecorder interface is external; per its contract `stop()` on an
inactive recorder aborts without effect. -/
structure Recorder where
  ident : Nat
  active : Bool
  listeners : List LKind
  deriving DecidableEq

/-- The ref-keyed registry state for one capture device handle:
`refs['mediarecorder_REF']` (at most one recorder), a counter supplying
construction identities, errors delivered to on_error, and the number of
page-unload guards added. -/
structure JsState where
  recorder : Option Recorder
  nextId : Nat
  errors : List ErrKind
  unloadGuards : Nat
  deriving DecidableEq

/-- Which optional lifecycle handlers the component was given (the
data-available handler is mandatory for the hook to exist at all). -/
structure RecorderConfig where
  hasOnStart : Bool
  hasOnStop : Bool
  hasOnError : Bool
  deriving DecidableEq

/-- Environment facts about the two fallible browser calls in the hook:
whether `new MediaRecorder(...)` succeeds and whether
`mediaRecorderRef.start(timeslice)` succeeds. -/
structure Env where
  constructOk : Bool
  startOk : Bool
  deriving DecidableEq

/-- Listener registration sequence of the hook, in source order:
dataavailable first, then start (if supplied), then stop (if supplied),
then error (always registered; a console sink is the default). -/
def listenersFor (cfg : RecorderConfig) : List LKind :=
  [LKind.dataavailable]
    ++ (if cfg.hasOnStart then [LKind.started] else [])
    ++ (if cfg.hasOnStop then [LKind.stopped] else [])
    ++ [LKind.errored]

/-- Embedding of the `mediarecorder_start_REF` hook body
(START_RECORDING_JS_TEMPLATE): stop any prior recorder, construct a new
one (reporting a construction error and returning on failure), overwrite
the registry entry, register the listener chain, add an unload guard, and
start it (reporting a start error on failure). -/
def startRecording (cfg : RecorderConfig) (env : Env) (s : JsState) : JsState :=
  let s1 : JsState :=
    match s.recorder with
    | none => s
    | some r => { s with recorder := some { r with active := false } }
  if env.constructOk then
    let newR : Recorder :=
      { ident := s1.nextId, active := false, listeners := listenersFor cfg }
    let s2 : JsState :=
      { s1 with
        recorder := some newR
        nextId := s1.nextId + 1
        unloadGuards := s1.unloadGuards + 1 }
    if env.startOk then
      { s2 with recorder := some { newR with active := true } }
    else
      { s2 with errors := s2.errors ++ [ErrKind.startFailed] }
  else
    { s1 with errors := s1.errors ++ [ErrKind.constructFailed] }

/-- Embedding of the script returned by `Webcam.stop`: look up
`refs['mediarecorder_REF']`; when present, call its `stop()` (which on an
already-inactive recorder has no effect). -/
def stopRecording (s : JsState) : JsState :=
  match s.recorder with
  | none => s
  | some r => { s with recorder := some { r with active := false } }

/-- A session is Idle when no recorder is registered or the registered one
is not recording. -/
def JsState.isIdle (s : JsState) : Bool :=
  match s.recorder with
  | none => true
  | some r => !r.active

/-- Embedding of the dataavailable listener body: a chunk is forwarded
(readAsDataURL-encoded, then handed to on_data_available) exactly when
`e.data.size > 0`; the transport encoding itself is the external
FileReader, kept abstract. -/
def onDataAvailableListener (encode : List Nat → List Char) (chunk : List Nat) :
    Option (List Char) :=
  if 0 < chunk.length then some (encode chunk) else none

/-- Payloads delivered to the application for a device-emitted chunk
sequence, in emission order. -/
def deliveredPayloads (encode : List Nat → List Char) (chunks : List (List Nat)) :
    List (List Char) :=
  chunks.filterMap (onDataAvailableListener encode)

/-- Which of the four recording event handlers were registered on the
component (`self.event_triggers`). -/
structure Triggers where
  onDataAvailable : Option Unit
  onStart : Option Unit
  onStop : Option Unit
  onError : Option Unit
  deriving DecidableEq

/-- The scripts `Webcam.start` can return. -/
inductive ScriptAction
  | invokeStart
  deriving DecidableEq

/-- Embedding of `Webcam.start`: raise ValueError when no
on_data_available trigger is registered, otherwise return the script that
invokes the start hook. -/
def webcamStart (t : Triggers) : Except (List Char) ScriptAction :=
  match t.onDataAvailable with
  | none => Except.error ("on_data_available is required to start recording.".toList)
  | some _ => Except.ok ScriptAction.invokeStart

/-- Embedding of `Webcam.add_hooks`: without an on_data_available trigger
no recording infrastructure is emitted; otherwise one rendered hook whose
listener chain is determined by the registered triggers. -/
def addHooks (t : Triggers) : List RecorderConfig :=
  match t.onDataAvailable with
  | none => []
  | some _ =>
      [{ hasOnStart := t.onStart.isSome
         hasOnStop := t.onStop.isSome
         hasOnError := t.onError.isSome }]

/-! ## Server-Side Reassembler (webcam_demo State) -/

/-- The recording-related fields of the demo `State`, with the on-disk
video artifact embedded as `Option (List Nat)` (`none` = no file). -/
structure VideoState where
  recording : Bool
  nRecordings : Nat
  file : Option (List Nat)
  deriving DecidableEq

/-- Embedding of `State.on_start_recording`
(src/webcam_demo/webcam_demo/webcam_demo.py): set the recording flag,
bump the generation counter, truncate/create the artifact empty. -/
def on_start_recording (st : VideoState) : VideoState :=
  { st with recording := true, nRecordings := st.nRecordings + 1, file := some [] }

/-- Embedding of `State.handle_video_chunk`: open the artifact in append
mode (creating it when absent), normalize the chunk with
`strip_codec_part`, decode it through the external data-URI opener
(abstracted as `decode`), and append the bytes. -/
def handle_video_chunk (decode : List Char → List Nat) (st : VideoState)
    (chunk : List Char) : VideoState :=
  { st with file := some (st.file.getD [] ++ decode (strip_codec_part chunk)) }

/-- Embedding of `State.on_stop_recording`: clear the recording flag. -/
def on_stop_recording (st : VideoState) : VideoState :=
  { st with recording := false }

/-- Embedding of `State.video_exists` in the current demo
(src/webcam_demo/webcam_demo/webcam_demo.py): it returns the on-disk
existence unconditionally; the recording flag is only the cached var's
recomputation dependency. -/
def video_exists (recording onDisk : Bool) : Bool :=
  onDisk

/-- Embedding of `State.video_exists` in the legacy demo
(src/webcam/webcam_demo/webcam_demo/webcam_demo.py): on-disk existence is
reported only when not recording; while recording it returns False. -/
def video_exists_legacy (recording onDisk : Bool) : Bool :=
  if !recording then onDisk else false

/-- Decimal digit list of a natural number, most significant first,
embedding Python `str(n)` for the f-string that builds the video URL. -/
def decDigits (n : Nat) : List Nat :=
  if h : n < 10 then [n]
  else decDigits (n / 10) ++ [n % 10]
decreasing_by exact Nat.div_lt_self (by omega) (by omega)

/-- Decimal rendering of a natural number as characters. -/
def decStr (n : Nat) : List Char :=
  (decDigits n).map Nat.digitChar

/-- Embedding of the video retrieval URL built in `webcam_upload_component`:
the upload URL of the artifact followed by the cache-busting query
`?r=<n_recordings>`. -/
def videoUrl (base : List Char) (n : Nat) : List Char :=
  base ++ ('?' :: 'r' :: '=' :: decStr n)

/-! ## Screenshot Capture (State.handle_screenshot in both demos) -/

/-- The screenshot-related fields of the demo `State`. -/
structure ScreenshotState where
  loading : Bool
  lastScreenshot : Option (List Nat)
  lastTimestamp : Nat
  deriving DecidableEq

/-- Embedding of `State.handle_screenshot` in the current demo
(src/webcam_demo/webcam_demo/webcam_demo.py): return unchanged when
loading or when the payload is empty/absent; otherwise open and decode the
data URI (the external opener/image library abstracted as `decode`) —
`Except.error` stands for the uncaught fault its failure raises. -/
def handle_screenshot (decode : List Char → Option (List Nat)) (now : Nat)
    (st : ScreenshotState) (uri : List Char) : Except Unit ScreenshotState :=
  if st.loading || uri.isEmpty then Except.ok st
  else
    match decode uri with
    | some img => Except.ok { st with lastTimestamp := now, lastScreenshot := some img }
    | none => Except.error ()

/-- Embedding of `State.handle_screenshot` in the legacy demo
(src/webcam/webcam_demo/webcam_demo/webcam_demo.py): it guards only on
`loading` and opens the payload unconditionally otherwise. -/
def handle_screenshot_legacy (decode : List Char → Option (List Nat)) (now : Nat)
    (st : ScreenshotState) (uri : List Char) : Except Unit ScreenshotState :=
  if st.loading then Except.ok st
  else
    match decode uri with
    | some img => Except.ok { st with lastTimestamp := now, lastScreenshot := some img }
    | none => Except.error ()

/-- Modelled from the spec: a concrete instance of the external data-URI
opener interface, used to instantiate counterexamples and witnesses — an
empty or absent payload (the failure-shaped no-stream result) is not a
resolvable URI, so opening it faults; any non-empty payload decodes. -/
def decodeUriModel (uri : List Char) : Option (List Nat) :=
  if uri.isEmpty then none else some (uri.map Char.toNat)

theorem removeFirstMatching_of_none {pred : List Char → Bool} {l : List (List Char)}
    (h : ∀ p ∈ l, ¬ pred p) : removeFirstMatching pred l = l := by
  induction l with
  | nil => rfl
  | cons a t ih =>
      have ha : pred a = false := by
        have := h a (List.mem_cons_self a t)
        simpa using this
      simp only [removeFirstMatching, ha, if_false, Bool.false_eq_true]
      rw [ih fun p hp => h p (List.mem_cons_of_mem a hp)]

theorem loopRemove_eq_removeFirstMatching (l : List (List Char)) :
    loopRemove l = removeFirstMatching hasCodecs l := by
  induction l with
  | nil => rfl
  | cons a t ih =>
      by_cases hpa : hasCodecs a = true
      · simp [loopRemove, List.find?_cons_of_pos _ hpa, removeFirstMatching, hpa]
      · have hpa' : hasCodecs a = false := by simpa using hpa
        rw [loopRemove, List.find?_cons_of_neg _ (by simp [hpa'])]
        cases hft : t.find? hasCodecs with
        | none =>
            have hnone : ∀ p ∈ t, ¬ hasCodecs p = true := by
              intro p hp
              exact List.find?_eq_none.mp hft p hp
            show a :: t = removeFirstMatching hasCodecs (a :: t)
            simp only [removeFirstMatching, hpa', if_false, Bool.false_eq_true]
            rw [removeFirstMatching_of_none hnone]
        | some p =>
            have hp : hasCodecs p = true := List.find?_some hft
            have hne : (a == p) = false := by
              apply beq_eq_false_iff_ne.mpr
              intro e
              rw [e, hp] at hpa'
              exact Bool.true_eq_false.mp hpa'
            have herase : (a :: t).erase p = a :: t.erase p := by
              simp [List.erase_cons, hne]
            show (a :: t).erase p = removeFirstMatching hasCodecs (a :: t)
            rw [herase]
            have ht : t.erase p = removeFirstMatching hasCodecs t := by
              have := ih
              rw [loopRemove, hft] at this
              exact this
            simp only [removeFirstMatching, hpa', if_false, Bool.false_eq_true]
            rw [ht]

theorem not_semi_of_mem_splitOnSemi :
    ∀ (s : List Char), ∀ p ∈ splitOnSemi s, ';' ∉ p := by
  intro s
  induction s with
  | nil =>
      intro p hp
      simp only [splitOnSemi, List.mem_singleton] at hp
      subst hp
      simp
  | cons c t ih =>
      intro p hp
      by_cases hc : c = ';'
      · subst hc
        simp only [splitOnSemi, if_pos rfl, if_true, List.mem_cons] at hp
        rcases hp with h | h
        · subst h; simp
        · exact ih p h
      · simp only [splitOnSemi, if_neg hc] at hp
        cases hseq : splitOnSemi t with
        | nil =>
            rw [hseq] at hp
            simp only [List.headD_nil, List.tail_nil, List.mem_singleton] at hp
            subst hp
            simp only [List.mem_singleton]
            exact fun e => hc e.symm
        | cons seg rest =>
            rw [hseq] at hp
            simp only [List.headD_cons, List.tail_cons, List.mem_cons] at hp
            rcases hp with h | h
            · subst h
              intro hmem
              rcases List.mem_cons.mp hmem with h1 | h1
              · exact hc h1.symm
              · exact ih seg (by rw [hseq]; exact List.mem_cons_self seg rest) h1
            · exact ih p (by rw [hseq]; exact List.mem_cons_of_mem seg h)

theorem splitOnSemi_of_not_semi {x : List Char} (h : ';' ∉ x) :
    splitOnSemi x = [x] := by
  induction x with
  | nil => rfl
  | cons c t ih =>
      have hc : ¬ c = ';' := fun e => h (by rw [e]; exact List.mem_cons_self _ _)
      have ht : ';' ∉ t := fun hm => h (List.mem_cons_of_mem c hm)
      simp [splitOnSemi, if_neg hc, ih ht]

theorem splitOnSemi_append_semi {x : List Char} (r : List Char) (h : ';' ∉ x) :
    splitOnSemi (x ++ ';' :: r) = x :: splitOnSemi r := by
  induction x with
  | nil => simp [splitOnSemi]
  | cons c t ih =>
      have hc : ¬ c = ';' := fun e => h (by rw [e]; exact List.mem_cons_self _ _)
      have ht : ';' ∉ t := fun hm => h (List.mem_cons_of_mem c hm)
      simp [splitOnSemi, if_neg hc, ih ht]

theorem splitOnSemi_joinSemi :
    ∀ (L : List (List Char)), L ≠ [] → (∀ p ∈ L, ';' ∉ p) →
      splitOnSemi (joinSemi L) = L := by
  intro L
  induction L with
  | nil => intro h; exact absurd rfl h
  | cons x rest ih =>
      intro _ hfree
      cases rest with
      | nil =>
          simp only [joinSemi]
          exact splitOnSemi_of_not_semi (hfree x (List.mem_cons_self _ _))
      | cons y rest2 =>
          have hx : ';' ∉ x := hfree x (List.mem_cons_self _ _)
          have hrest : ∀ p ∈ y :: rest2, ';' ∉ p := by
            intro p hp
            exact hfree p (List.mem_cons_of_mem x hp)
          simp only [joinSemi]
          rw [splitOnSemi_append_semi _ hx, ih (by simp) hrest]

theorem countP_removeFirstMatching_eq_zero {pred : List Char → Bool}
    {l : List (List Char)} (h : l.countP pred ≤ 1) :
    (removeFirstMatching pred l).countP pred = 0 := by
  induction l with
  | nil => rfl
  | cons a t ih =>
      by_cases hpa : pred a = true
      · have hc := List.countP_cons pred a t
        rw [hpa] at hc
        simp only [if_true] at hc
        rw [hc] at h
        have ht : t.countP pred = 0 := by omega
        simp only [removeFirstMatching, hpa, if_true]
        exact ht
      · have hpa' : pred a = false := by simpa using hpa
        have hle : t.countP pred ≤ 1 := by
          have hc := List.countP_cons pred a t
          rw [hpa'] at hc
          simp only [Bool.false_eq_true, if_false] at hc
          omega
        simp only [removeFirstMatching, hpa', Bool.false_eq_true, if_false]
        rw [List.countP_cons]
        rw [hpa']
        simp only [Bool.false_eq_true, if_false]
        rw [ih hle]

theorem mem_of_mem_removeFirstMatching {pred : List Char → Bool}
    {l : List (List Char)} {p : List Char}
    (h : p ∈ removeFirstMatching pred l) : p ∈ l := by
  induction l with
  | nil => exact absurd h (by simp [removeFirstMatching])
  | cons a t ih =>
      by_cases hpa : pred a = true
      · rw [removeFirstMatching, if_pos hpa] at h
        exact List.mem_cons_of_mem a h
      · have hpa' : pred a = false := by simpa using hpa
        rw [removeFirstMatching, hpa'] at h
        simp only [Bool.false_eq_true, if_false] at h
        rcases List.mem_cons.mp h with h1 | h1
        · rw [h1]; exact List.mem_cons_self _ _
        · exact List.mem_cons_of_mem a (ih h1)

theorem loopRemove_of_find_none {l : List (List Char)}
    (h : l.find? hasCodecs = none) : loopRemove l = l := by
  rw [loopRemove, h]

/-- C1 (counterexample): the normalizer is not idempotent on every payload.
On a payload with two segments containing codecs=, the first pass removes
the first of them and the second pass removes the remaining one. -/
theorem claim_C1_counterexample :
    strip_codec_part (strip_codec_part ("v;codecs=a;codecs=b".toList))
      ≠ strip_codec_part ("v;codecs=a;codecs=b".toList) := by
  decide

/-- C1 (amended): the normalizer is idempotent on every payload in which
at most one semicolon-separated segment contains codecs= — in particular
on every already-normalized payload of that form and on every payload the
specification expects (it states at most one such segment is expected). -/
theorem claim_C1_normalizer_idempotent_amended (x : List Char)
    (h : (splitOnSemi x).countP hasCodecs ≤ 1) :
    strip_codec_part (strip_codec_part x) = strip_codec_part x := by
  unfold strip_codec_part
  rw [loopRemove_eq_removeFirstMatching (splitOnSemi x)]
  have h0 : (removeFirstMatching hasCodecs (splitOnSemi x)).countP hasCodecs = 0 :=
    countP_removeFirstMatching_eq_zero h
  have hfree : ∀ p ∈ removeFirstMatching hasCodecs (splitOnSemi x), ';' ∉ p :=
    fun p hp => not_semi_of_mem_splitOnSemi x p (mem_of_mem_removeFirstMatching hp)
  have hfind : (removeFirstMatching hasCodecs (splitOnSemi x)).find? hasCodecs = none := by
    apply List.find?_eq_none.mpr
    intro a ha
    have := List.countP_eq_zero.mp h0 a ha
    simpa using this
  by_cases hnil : removeFirstMatching hasCodecs (splitOnSemi x) = []
  · rw [hnil]
    decide
  · rw [splitOnSemi_joinSemi _ hnil hfree, loopRemove_of_find_none hfind]

/-- C1 (witness): idempotence at the specification's own example payload. -/
theorem claim_C1_witness :
    (splitOnSemi ("video/webm;codecs=vp8;foo=bar".toList)).countP hasCodecs ≤ 1 ∧
    strip_codec_part (strip_codec_part ("video/webm;codecs=vp8;foo=bar".toList))
      = strip_codec_part ("video/webm;codecs=vp8;foo=bar".toList) :=
  ⟨by decide, claim_C1_normalizer_idempotent_amended _ (by decide)⟩

/-- C6: strip_codec_part computes exactly the specification's normalizer —
split on the semicolon delimiter, remove only the first segment containing
codecs= (later matching segments are kept; nothing is removed when no
segment matches), rejoin with semicolons — and the specification's worked
example holds. -/
theorem claim_C6_normalizer_first_match :
    (∀ s : List Char, strip_codec_part s = normalizeSpec s) ∧
    strip_codec_part ("video/webm;codecs=vp8;foo=bar".toList)
      = ("video/webm;foo=bar".toList) := by
  constructor
  · intro s
    unfold strip_codec_part normalizeSpec
    rw [loopRemove_eq_removeFirstMatching]
  · decide

theorem stopRecording_isIdle (s : JsState) : (stopRecording s).isIdle = true := by
  obtain ⟨rec?, nid, errs, g⟩ := s
  cases rec? <;> simp [stopRecording, JsState.isIdle]

theorem stopRecording_of_isIdle {s : JsState} (h : s.isIdle = true) :
    stopRecording s = s := by
  obtain ⟨rec?, nid, errs, g⟩ := s
  cases rec? with
  | none => rfl
  | some r =>
      obtain ⟨i, a, ls⟩ := r
      simp only [JsState.isIdle, Bool.not_eq_true'] at h
      simp [stopRecording, h]

/-- C4: a stop on an Idle session — never started, or already stopped —
is a no-op: the registry, error channel and guards are all unchanged, and
stop is idempotent. -/
theorem claim_C4_stop_idle_noop (s : JsState) (h : s.isIdle = true) :
    stopRecording s = s ∧
    stopRecording (stopRecording s) = stopRecording s :=
  ⟨stopRecording_of_isIdle h, stopRecording_of_isIdle (stopRecording_isIdle s)⟩

/-- C4 (witness): stop at the fresh never-started session. -/
theorem claim_C4_witness :
    stopRecording ⟨none, 0, [], 0⟩ = ⟨none, 0, [], 0⟩ ∧
    stopRecording (stopRecording ⟨none, 0, [], 0⟩) = stopRecording ⟨none, 0, [], 0⟩ :=
  claim_C4_stop_idle_noop ⟨none, 0, [], 0⟩ (by decide)

/-- C5: when construction and start succeed, two successive starts leave
the registry holding exactly the one recorder built by the second start —
the prior one was stopped and discarded — carrying the listener chain
registered once, with exactly one dataavailable listener. -/
theorem claim_C5_single_active_recorder (cfg : RecorderConfig) (env : Env)
    (s : JsState) (hc : env.constructOk = true) (hs : env.startOk = true) :
    (startRecording cfg env (startRecording cfg env s)).recorder
      = some { ident := s.nextId + 1, active := true, listeners := listenersFor cfg } ∧
    (listenersFor cfg).count LKind.dataavailable = 1 := by
  constructor
  · obtain ⟨rec?, nid, errs, g⟩ := s
    cases rec? <;> simp [startRecording, hc, hs]
  · obtain ⟨b1, b2, b3⟩ := cfg
    cases b1 <;> cases b2 <;> cases b3 <;> rfl

/-- C5 (witness): two starts from the fresh session with all handlers
registered and a healthy environment. -/
theorem claim_C5_witness :
    (startRecording ⟨true, true, true⟩ ⟨true, true⟩
        (startRecording ⟨true, true, true⟩ ⟨true, true⟩ ⟨none, 0, [], 0⟩)).recorder
      = some { ident := 1, active := true, listeners := listenersFor ⟨true, true, true⟩ } ∧
    (listenersFor ⟨true, true, true⟩).count LKind.dataavailable = 1 :=
  claim_C5_single_active_recorder ⟨true, true, true⟩ ⟨true, true⟩ ⟨none, 0, [], 0⟩ rfl rfl

/-- C8: the dataavailable listener forwards a chunk exactly when its size
is positive, so over any emitted chunk sequence the delivered payloads are
precisely the encodings of the non-empty chunks in emission order, and no
zero-length chunk ever reaches the on-data-available handler. -/
theorem claim_C8_nonempty_chunks_only :
    (∀ (encode : List Nat → List Char) (chunks : List (List Nat)),
        deliveredPayloads encode chunks
          = (chunks.filter fun c => 0 < c.length).map encode) ∧
    (∀ (encode : List Nat → List Char) (chunk : List Nat),
        (onDataAvailableListener encode chunk).isSome = true ↔ 0 < chunk.length) := by
  constructor
  · intro encode chunks
    induction chunks with
    | nil => rfl
    | cons c t ih =>
        simp only [deliveredPayloads] at ih
        by_cases hc : 0 < c.length
        · simp [deliveredPayloads, List.filterMap_cons, List.filter_cons,
            onDataAvailableListener, hc, ih]
        · simp [deliveredPayloads, List.filterMap_cons, List.filter_cons,
            onDataAvailableListener, hc, ih]
  · intro encode chunk
    by_cases hc : 0 < chunk.length
    · simp [onDataAvailableListener, hc]
    · simp [onDataAvailableListener, hc]

/-- C10: starting without a registered data-available handler raises the
usage error before emitting the start script, and — because add_hooks also
emits no recording infrastructure for such a component — no recorder can
be constructed and the session stays Idle. -/
theorem claim_C10_start_requires_handler (t : Triggers)
    (h : t.onDataAvailable = none) :
    webcamStart t
      = Except.error ("on_data_available is required to start recording.".toList) ∧
    addHooks t = [] := by
  constructor
  · simp [webcamStart, h]
  · simp [addHooks, h]

/-- C10 (witness): a component with no handlers at all. -/
theorem claim_C10_witness :
    webcamStart ⟨none, none, none, none⟩
      = Except.error ("on_data_available is required to start recording.".toList) ∧
    addHooks ⟨none, none, none, none⟩ = [] :=
  claim_C10_start_requires_handler ⟨none, none, none, none⟩ rfl

theorem foldl_handle_video_chunk (decode : List Char → List Nat) :
    ∀ (chunks : List (List Char)) (st : VideoState) (l : List Nat),
      st.file = some l →
      (chunks.foldl (handle_video_chunk decode) st).file
        = some (l ++ (chunks.map fun c => decode (strip_codec_part c)).flatten) := by
  intro chunks
  induction chunks with
  | nil =>
      intro st l h
      simp [h]
  | cons c t ih =>
      intro st l h
      rw [List.foldl_cons]
      have hstep : (handle_video_chunk decode st c).file
          = some (l ++ decode (strip_codec_part c)) := by
        simp [handle_video_chunk, h]
      rw [ih _ _ hstep]
      simp [List.append_assoc]

/-- C7: after on_start_recording truncates the artifact to empty, folding
handle_video_chunk over the emitted chunks in emission order leaves the
artifact holding exactly the concatenation, in order, of the decoded bytes
of each normalized chunk — nothing reordered, nothing dropped. -/
theorem claim_C7_reassembler_concat (decode : List Char → List Nat)
    (st : VideoState) (chunks : List (List Char)) :
    (on_start_recording st).file = some [] ∧
    (chunks.foldl (handle_video_chunk decode) (on_start_recording st)).file
      = some ((chunks.map fun c => decode (strip_codec_part c)).flatten) := by
  refine ⟨rfl, ?_⟩
  have h := foldl_handle_video_chunk decode chunks (on_start_recording st) [] rfl
  simpa using h

theorem decDigits_lt (n : Nat) : ∀ d ∈ decDigits n, d < 10 := by
  induction n using decDigits.induct with
  | case1 n h =>
      intro d hd
      simp [decDigits, h] at hd
      omega
  | case2 n h ih =>
      intro d hd
      rw [decDigits, dif_neg h] at hd
      rcases List.mem_append.mp hd with h1 | h1
      · exact ih d h1
      · simp at h1
        omega

theorem decDigits_foldl (n : Nat) :
    ∀ a : Nat, (decDigits n).foldl (fun acc d => acc * 10 + d) a
      = a * 10 ^ (decDigits n).length + n := by
  induction n using decDigits.induct with
  | case1 n h =>
      intro a
      rw [decDigits, dif_pos h]
      simp [List.foldl]
  | case2 n h ih =>
      intro a
      rw [decDigits, dif_neg h, List.foldl_append, ih, List.length_append]
      simp only [List.foldl_cons, List.foldl_nil, List.length_singleton]
      have hpow : a * 10 ^ ((decDigits (n / 10)).length + 1)
          = a * 10 ^ (decDigits (n / 10)).length * 10 := by
        rw [pow_succ, Nat.mul_assoc]
      rw [hpow]
      generalize a * 10 ^ (decDigits (n / 10)).length = m
      omega

theorem digitChar_inj_lt :
    ∀ d, d < 10 → ∀ e, e < 10 → Nat.digitChar d = Nat.digitChar e → d = e := by
  decide

theorem map_digitChar_inj :
    ∀ (l1 l2 : List Nat), (∀ d ∈ l1, d < 10) → (∀ d ∈ l2, d < 10) →
      l1.map Nat.digitChar = l2.map Nat.digitChar → l1 = l2 := by
  intro l1
  induction l1 with
  | nil =>
      intro l2 _ _ h
      cases l2 with
      | nil => rfl
      | cons e t2 => simp at h
  | cons d t ih =>
      intro l2 h1 h2 h
      cases l2 with
      | nil => simp at h
      | cons e t2 =>
          simp only [List.map_cons, List.cons.injEq] at h
          have hd : d = e :=
            digitChar_inj_lt d (h1 d (List.mem_cons_self d t)) e
              (h2 e (List.mem_cons_self e t2)) h.1
          rw [hd, ih t2 (fun x hx => h1 x (List.mem_cons_of_mem d hx))
            (fun x hx => h2 x (List.mem_cons_of_mem e hx)) h.2]

theorem decStr_inj {n m : Nat} (h : decStr n = decStr m) : n = m := by
  have hd : decDigits n = decDigits m :=
    map_digitChar_inj _ _ (decDigits_lt n) (decDigits_lt m) h
  have h1 := decDigits_foldl n 0
  have h2 := decDigits_foldl m 0
  rw [hd] at h1
  simp only [Nat.zero_mul, Nat.zero_add] at h1 h2
  exact h1.symm.trans h2

/-- C9: on_start_recording increments the generation counter by exactly 1,
and retrieval URLs built from two different generation values are unequal
strings. -/
theorem claim_C9_generation_counter (st : VideoState) (base : List Char)
    (n m : Nat) (h : n ≠ m) :
    (on_start_recording st).nRecordings = st.nRecordings + 1 ∧
    videoUrl base n ≠ videoUrl base m := by
  refine ⟨rfl, ?_⟩
  intro he
  unfold videoUrl at he
  have h2 := List.append_cancel_left he
  simp only [List.cons.injEq, true_and] at h2
  exact h (decStr_inj h2)

/-- C9 (witness): the counter step at a fresh state and the URLs of
generations 1 and 2. -/
theorem claim_C9_witness :
    (on_start_recording ⟨false, 0, none⟩).nRecordings = 0 + 1 ∧
    videoUrl [] 1 ≠ videoUrl [] 2 :=
  claim_C9_generation_counter ⟨false, 0, none⟩ [] 1 2 (by decide)

/-- C2 (counterexample): in the current demo the existence query reports
true while a recording is in progress and the partial file exists on disk,
contradicting the claim that it must then be false. -/
theorem claim_C2_counterexample : ¬ (video_exists true true = false) := by
  decide

/-- C2 (amended): only the legacy demo's existence query returns false
whenever the recording flag is set; the current demo's query returns the
on-disk existence unchanged, the recording flag serving only as its
recomputation dependency. -/
theorem claim_C2_existence_amended (onDisk : Bool) :
    video_exists_legacy true onDisk = false ∧
    video_exists true onDisk = onDisk :=
  ⟨rfl, rfl⟩

/-- C3 (counterexample): the legacy screenshot handler guards only on
loading; on the empty failure-shaped payload it opens the empty URI and
faults. -/
theorem claim_C3_counterexample :
    handle_screenshot_legacy decodeUriModel 0 ⟨false, none, 0⟩ []
      = Except.error () := rfl

/-- C3 (amended): the current demo's screenshot handler completes without
an uncaught fault on the empty/absent failure-shaped payload, leaving the
state unchanged — so failure is distinguishable in the single channel from
a successful delivery, which updates the stored screenshot; the legacy
handler lacks the empty-payload guard. -/
theorem claim_C3_screenshot_amended :
    (∀ (decode : List Char → Option (List Nat)) (now : Nat) (st : ScreenshotState),
        handle_screenshot decode now st [] = Except.ok st) ∧
    (∀ (decode : List Char → Option (List Nat)) (now : Nat) (st : ScreenshotState)
        (uri : List Char) (img : List Nat),
        st.loading = false → decode uri = some img → uri ≠ [] →
        handle_screenshot decode now st uri
          = Except.ok { st with lastTimestamp := now, lastScreenshot := some img }) := by
  constructor
  · intro decode now st
    simp [handle_screenshot]
  · intro decode now st uri img hl hd hne
    have hemp : uri.isEmpty = false := by
      cases uri with
      | nil => exact absurd rfl hne
      | cons a t => rfl
    simp [handle_screenshot, hl, hemp, hd]

/-- C3 (witness): the empty payload at a concrete non-loading state, and a
concrete successful delivery. -/
theorem claim_C3_witness :
    handle_screenshot decodeUriModel 0 ⟨false, none, 0⟩ [] = Except.ok ⟨false, none, 0⟩ ∧
    handle_screenshot decodeUriModel 5 ⟨false, none, 0⟩ ['a']
      = Except.ok ⟨false, some [97], 5⟩ := by
  constructor
  · exact claim_C3_screenshot_amended.1 decodeUriModel 0 ⟨false, none, 0⟩
  · exact claim_C3_screenshot_amended.2 decodeUriModel 5 ⟨false, none, 0⟩ ['a'] [97]
      rfl (by decide) (by decide)
